import Mathlib

/-!
Verification of the ECOFUTE weekly staff-scheduling subsystem (the "Planning"
feature): a shallow embedding of the scheduling logic of
`src/components/admin/Planning.vue` and of the events REST route
`backend/routes/events.js`, with theorems checking the natural-language
specification of the subsystem against the code.

Modelling conventions:
* Calendar dates are modelled at day granularity as `Int` day numbers
  (days since 1970-01-01, the value of a JS `Date` held at midnight).
  An *invalid* JS `Date` (`NaN` timestamp) is modelled as `none`, so a
  possibly-invalid date is `Option Int`.  JS comparisons on dates coerce to
  the timestamp and any comparison with `NaN` is false, which is the
  `jsDateLe` function below.
* JS strings handled character-by-character (the composite time string) are
  `List Char`; other strings are Lean `String`.
* The `assignedTo` field has TS type `string | null | undefined`; it is
  modelled by the three-cased `JSStr`, and JS strict equality `===` by
  `strictEq` (which distinguishes `null` from `undefined`).
-/

namespace Ecofute

/-- Character-list strings, used where the code manipulates string contents. -/
abbrev Str := List Char

/-- A JS value that is a string, `null`, or `undefined` (the type of the
`assignedTo` field, `assignedTo?: string | null`). -/
inductive JSStr where
  | undef
  | jnull
  | str (s : String)
  deriving DecidableEq, Repr

/-- JS strict equality `===` on `JSStr`: `undefined === null` is `false`. -/
def strictEq : JSStr → JSStr → Bool
  | JSStr.undef, JSStr.undef => true
  | JSStr.jnull, JSStr.jnull => true
  | JSStr.str a, JSStr.str b => a == b
  | _, _ => false

/-- JS truthiness of a string-or-null-or-undefined value: only a non-empty
string is truthy. -/
def jsTruthyStr : JSStr → Bool
  | JSStr.str s => !(s == "")
  | _ => false

/-- The JS expression `x || null` applied to an `assignedTo` value
(`formData.assignedTo || null` in `saveEvent`). -/
def jsOrNull : JSStr → JSStr
  | JSStr.str s => if s == "" then JSStr.jnull else JSStr.str s
  | _ => JSStr.jnull

/-- JSON serialization of `assignedTo` followed by the store write: an
`undefined` field is dropped by `JSON.stringify` and the column then takes its
`null` default; `null` and strings persist unchanged. -/
def storedJS : JSStr → JSStr
  | JSStr.undef => JSStr.jnull
  | x => x

/-! ### JS dates at day granularity -/

/-- JS `<=` between two `Date`s at day granularity: coerces to the timestamp;
any comparison involving an invalid date (`NaN`) is false. -/
def jsDateLe : Option Int → Option Int → Bool
  | some a, some b => decide (a ≤ b)
  | _, _ => false

/-- `date-fns` `addDays` at day granularity: shifts a valid date by `n`
calendar days; an invalid date stays invalid. -/
def jsAddDays (d : Option Int) (n : Int) : Option Int :=
  d.map (fun x => x + n)

/-- `date-fns` `isSameDay` with the cell's (always valid) day: false for an
invalid date. -/
def isSameDayJS (d : Option Int) (day : Int) : Bool :=
  match d with
  | some x => x == day
  | none => false

/-- Gregorian leap year. -/
def isLeap (y : Int) : Bool :=
  y % 4 == 0 && (!(y % 100 == 0) || y % 400 == 0)

/-- Number of days in month `m` of year `y`. -/
def daysInMonth (y m : Int) : Int :=
  if m == 2 then (if isLeap y then 29 else 28)
  else if m == 4 || m == 6 || m == 9 || m == 11 then 30
  else 31

/-- Day number (days since 1970-01-01) of the civil date `y-m-d`
(the standard era-based conversion; all divisions here act on values where
truncated, floored and Euclidean division agree). -/
def daysFromCivil (y m d : Int) : Int :=
  let y2 := if m ≤ 2 then y - 1 else y
  let era := (if 0 ≤ y2 then y2 else y2 - 399) / 400
  let yoe := y2 - era * 400
  let mp := if 2 < m then m - 3 else m + 9
  let doy := (153 * mp + 2) / 5 + d - 1
  let doe := yoe * 365 + yoe / 4 - yoe / 100 + doy
  era * 146097 + doe - 719468

/-- Numeric value of a digit character. -/
def digitVal (c : Char) : Nat := c.toNat - 48

/-- `new Date(s)` on the strings produced by a `type="date"` form field, at
day granularity: an exact `yyyy-MM-dd` string with in-range month and day
parses to its day number; anything else (including the empty string) is an
invalid date, `none`. -/
def jsParseDate (s : Str) : Option Int :=
  match s with
  | [c1, c2, c3, c4, c5, c6, c7, c8, c9, c10] =>
    if c1.isDigit && c2.isDigit && c3.isDigit && c4.isDigit && (c5 == '-')
        && c6.isDigit && c7.isDigit && (c8 == '-') && c9.isDigit && c10.isDigit then
      let y : Int := (1000 * digitVal c1 + 100 * digitVal c2 + 10 * digitVal c3 + digitVal c4 : Nat)
      let m : Int := (10 * digitVal c6 + digitVal c7 : Nat)
      let d : Int := (10 * digitVal c9 + digitVal c10 : Nat)
      if 1 ≤ m ∧ m ≤ 12 ∧ 1 ≤ d ∧ d ≤ daysInMonth y m then
        some (daysFromCivil y m d)
      else none
    else none
  | _ => none

/-! ### The composite time string -/

/-- The literal separator of the composite display time string. -/
def sepChars : Str := [' ', '-', ' ']

/-- JS `String.prototype.includes` for a fixed search sequence. -/
def containsSeq (sep : Str) : Str → Bool
  | [] => sep.isEmpty
  | c :: rest => sep.isPrefixOf (c :: rest) || containsSeq sep rest

/-- JS `String.prototype.split` on a (non-empty) separator sequence. -/
def splitOnSeq (sep : Str) (l : Str) : List Str :=
  match l with
  | [] => [[]]
  | c :: rest =>
    if h : sep ≠ [] ∧ sep.isPrefixOf (c :: rest) then
      [] :: splitOnSeq sep ((c :: rest).drop sep.length)
    else
      match splitOnSeq sep rest with
      | [] => [[c]]
      | p :: ps => (c :: p) :: ps
termination_by l.length
decreasing_by
  · simp only [List.length_drop, List.length_cons]
    have : sep.length ≠ 0 := by
      intro h0
      exact h.1 (List.eq_nil_of_length_eq_zero h0)
    omega
  · simp

/-- The template-string `` `${formData.startTime} - ${formData.endTime}` ``
built in `saveEvent`. -/
def formatTimeString (s e : Str) : Str := s ++ sepChars ++ e

/-- Fallback start of the 09:00–17:00 window. -/
def defaultStart : Str := "09:00".toList

/-- Fallback end of the 09:00–17:00 window. -/
def defaultEnd : Str := "17:00".toList

/-- The time parsing of `openEditEventDialog`: if the stored time string is
present and contains the separator, split on it and take the first two parts
(each falling back when empty); otherwise both parts default to the
09:00–17:00 window. -/
def parseTimePair (time : Option Str) : Str × Str :=
  match time with
  | some t =>
    if !t.isEmpty && containsSeq sepChars t then
      let parts := splitOnSeq sepChars t
      let p0 := parts.getD 0 []
      let p1 := parts.getD 1 []
      (if p0.isEmpty then defaultStart else p0, if p1.isEmpty then defaultEnd else p1)
    else (defaultStart, defaultEnd)
  | none => (defaultStart, defaultEnd)

/-- A well-formed 24-hour `HH:MM` time string: two digits, a colon, two
digits, with hours below 24 and minutes below 60. -/
def wellFormedTime : Str → Bool
  | [h1, h2, c, m1, m2] =>
    h1.isDigit && h2.isDigit && (c == ':') && m1.isDigit && m2.isDigit
      && decide (10 * digitVal h1 + digitVal h2 < 24)
      && decide (10 * digitVal m1 + digitVal m2 < 60)
  | _ => false

/-! ### Data model -/

/-- A roster entry (`TeamMember` in `Planning.vue`). -/
structure TeamMember where
  id : String
  firstName : String
  lastName : String
  email : String
  color : String
  deriving DecidableEq, Repr

/-- The shared fields object `baseEventData` built in `saveEvent`. -/
structure BaseEventData where
  title : String
  time : Option Str
  description : Option String
  color : String
  assignedTo : JSStr
  type : String
  deriving DecidableEq, Repr

/-- A create/update request body: `baseEventData` plus the `date` field
(`none` is an invalid date, which serializes to JSON `null`). -/
structure EventPayload extends BaseEventData where
  date : Option Int
  deriving DecidableEq, Repr

/-- The dialog form state `eventForm` (raw field values; the two date fields
hold the raw string of a `type="date"` input). -/
structure EventForm where
  title : String
  date : Str
  startTime : Str
  endTime : Str
  description : String
  color : String
  assignedTo : JSStr
  recurrence : Bool
  recurrenceEndDate : Str
  deriving DecidableEq, Repr

/-- An in-memory shift of the `events` collection (`CalendarEvent` in
`Planning.vue`; optional fields may be absent). -/
structure CalendarEvent where
  id : Nat
  title : String
  date : Option Int
  color : String
  description : Option String
  time : Option Str
  assignedTo : JSStr
  type : Option String
  deriving DecidableEq, Repr

/-- An event row held by the Event Store (the prisma `event` table). -/
structure StoredEvent where
  id : Nat
  title : String
  date : Option Int
  time : Option Str
  description : Option String
  color : String
  assignedTo : JSStr
  type : String
  deriving DecidableEq, Repr

/-- The combined state of the Event Store and of the in-memory collection. -/
structure SystemState where
  store : List StoredEvent
  events : List CalendarEvent
  deriving DecidableEq, Repr

/-- The write issued by the create branch of `saveEvent`: a batch create, a
single create, or no write at all. -/
inductive CreateAction where
  | batch (evs : List EventPayload)
  | single (p : EventPayload)
  | noWrite
  deriving DecidableEq, Repr

/-- The outcome of `duplicatePreviousWeek` before touching the store. -/
inductive DuplicateResult where
  | nothingToCopy
  | write (ps : List EventPayload)
  deriving DecidableEq, Repr

/-! ### saveEvent (frontend) -/

/-- The `baseEventData` object of `saveEvent`: composite time string, color
auto-assignment from the roster when an employee is selected, `assignedTo`
coerced by `|| null`, and the `planning` kind. -/
def baseEventData (team : List TeamMember) (form : EventForm) : BaseEventData :=
  let timeString := formatTimeString form.startTime form.endTime
  let eventColor :=
    match form.assignedTo with
    | JSStr.str s =>
      if s == "" then form.color
      else
        match team.find? (fun m => m.id == s) with
        | some member => if member.color == "" then form.color else member.color
        | none => form.color
    | _ => form.color
  { title := form.title, time := some timeString, description := some form.description,
    color := eventColor, assignedTo := jsOrNull form.assignedTo, type := "planning" }

/-- The payload of the single-create branch of `saveEvent`. -/
def singleCreatePayload (team : List TeamMember) (form : EventForm) : EventPayload :=
  { toBaseEventData := baseEventData team form, date := jsParseDate form.date }

/-- The payload of the edit branch of `saveEvent` (same shape as a single
create; the id is carried in the URL, not the body). -/
def saveEventEdit (team : List TeamMember) (form : EventForm) : EventPayload :=
  { toBaseEventData := baseEventData team form, date := jsParseDate form.date }

/-- Iteration bound for the weekly recurrence loop: the loop steps the
current date by 7 days per iteration, so `(E + 7 - S).toNat` iterations
always suffice; a comparison involving an invalid date exits at once. -/
def recMeasure : Option Int → Option Int → Nat
  | some c, some e => (e + 7 - c).toNat
  | _, _ => 0

/-- The body of the weekly recurrence loop of `saveEvent`:
`while (currentDateLoop <= endDate) { push(date); currentDateLoop = addDays(currentDateLoop, 7) }`,
returning the pushed dates, with an explicit iteration budget (the source
loop is unguarded; `recurrence_loop_terminates` below shows the budget
`recMeasure` is never what stops the loop). -/
def recurrenceDatesAux : Nat → Option Int → Option Int → List (Option Int)
  | 0, _, _ => []
  | fuel + 1, cur, endD =>
    if jsDateLe cur endD then cur :: recurrenceDatesAux fuel (jsAddDays cur 7) endD
    else []

/-- The dates pushed by the weekly recurrence loop of `saveEvent`. -/
def recurrenceDates (cur endD : Option Int) : List (Option Int) :=
  recurrenceDatesAux (recMeasure cur endD) cur endD

/-- The `eventsToCreate` array built by the recurrence loop: one payload per
generated date, all sharing the template `baseEventData`. -/
def eventsToCreate (base : BaseEventData) (cur endD : Option Int) : List EventPayload :=
  (recurrenceDates cur endD).map (fun d => { toBaseEventData := base, date := d })

/-- The create branch of `saveEvent` (non-edit mode): when the recurrence box
is checked and the end-date string is truthy (non-empty), run the weekly loop
and batch-create the result if non-empty (and otherwise issue no write at
all); otherwise issue one single create. -/
def saveEventCreate (team : List TeamMember) (form : EventForm) : CreateAction :=
  if form.recurrence && !form.recurrenceEndDate.isEmpty then
    let evs := eventsToCreate (baseEventData team form)
      (jsParseDate form.date) (jsParseDate form.recurrenceEndDate)
    if 0 < evs.length then CreateAction.batch evs else CreateAction.noWrite
  else CreateAction.single (singleCreatePayload team form)

/-! ### Grid projection -/

/-- `getEventsForCell`: the shifts of one (row, day) cell, by strict equality
on `assignedTo` and same-day comparison on the date. -/
def getEventsForCell (events : List CalendarEvent) (memberId : JSStr) (day : Int) :
    List CalendarEvent :=
  events.filter (fun e => strictEq e.assignedTo memberId && isSameDayJS e.date day)

/-! ### Week duplication -/

/-- The source-week selection of `duplicatePreviousWeek`: shifts whose date
lies between `addDays(T, -7)` and `addDays(addDays(T, -7), 6)` inclusive,
where `T` is the current week start. -/
def duplicateWindowFilter (events : List CalendarEvent) (T : Int) : List CalendarEvent :=
  events.filter (fun e => jsDateLe (some (T - 7)) e.date && jsDateLe e.date (some (T - 1)))

/-- The per-shift payload built by `duplicatePreviousWeek`: same content,
date advanced by 7 days, `planning` kind. -/
def dupTransform (e : CalendarEvent) : EventPayload :=
  { title := e.title, time := e.time, description := e.description, color := e.color,
    assignedTo := e.assignedTo, type := "planning", date := jsAddDays e.date 7 }

/-- The batch payload of `duplicatePreviousWeek`. -/
def duplicatePayloads (events : List CalendarEvent) (T : Int) : List EventPayload :=
  (duplicateWindowFilter events T).map dupTransform

/-- `duplicatePreviousWeek` before the store call: report "nothing to copy"
(and return without writing) when the source week is empty, else issue the
batch write. -/
def duplicatePreviousWeek (events : List CalendarEvent) (T : Int) : DuplicateResult :=
  if (duplicateWindowFilter events T).length == 0 then DuplicateResult.nothingToCopy
  else DuplicateResult.write (duplicatePayloads events T)

/-! ### The events route (backend)

DB-level success of each row insert is abstracted by an oracle
`ok : EventPayload → Bool`; a create that the database rejects corresponds to
`ok p = false` (the route's `catch`). -/

/-- A stored row built from a payload by the route's `prisma.event.create`
data object: `new Date(event.date)` (JSON `null`, from an invalid date,
revives to the epoch day 0 — only reachable on the unvalidated batch path),
`type: event.type || 'general'`, and JSON-dropped `undefined` fields taking
their column defaults. -/
def toStored (n : Nat) (p : EventPayload) : StoredEvent :=
  { id := n, title := p.title, date := some (p.date.getD 0), time := p.time,
    description := p.description, color := p.color,
    assignedTo := storedJS p.assignedTo,
    type := if p.type == "" then "general" else p.type }

/-- The next id the store assigns. -/
def freshId (store : List StoredEvent) : Nat := store.length

/-- The operations list of the batch branch of `router.post`, run inside one
`prisma.$transaction`: apply each create in order, aborting the whole run on
the first failure. -/
def runCreates (ok : EventPayload → Bool) :
    Nat → List EventPayload → List StoredEvent → Option (List StoredEvent)
  | _, [], acc => some acc
  | n, p :: ps, acc =>
    if ok p then runCreates ok (n + 1) ps (acc ++ [toStored n p]) else none

/-- The rows a fully successful batch appends. -/
def storedBatch (n : Nat) : List EventPayload → List StoredEvent
  | [] => []
  | p :: ps => toStored n p :: storedBatch (n + 1) ps

/-- The batch branch of `router.post`: run all creates in one transaction;
on any failure the transaction rolls back, the store is unchanged and the
route answers 500 (`false`). -/
def routerPostBatch (ok : EventPayload → Bool) (ps : List EventPayload)
    (store : List StoredEvent) : List StoredEvent × Bool :=
  match runCreates ok (freshId store) ps store with
  | some s2 => (s2, true)
  | none => (store, false)

/-- The single branch of `router.post`: reject with 400 when `title` or
`date` is falsy (empty title, or `null` from an invalid date) without
touching the store; otherwise create one row. -/
def routerPostSingle (ok : EventPayload → Bool) (p : EventPayload)
    (store : List StoredEvent) : List StoredEvent × Bool :=
  if p.title == "" || p.date == none then (store, false)
  else if ok p then (store ++ [toStored (freshId store) p], true)
  else (store, false)

/-! ### Fetching and the facade flows -/

/-- Insert into a list sorted by `le` (helper for the store's
`orderBy: date asc`). -/
def insertSortedBy (le : StoredEvent → StoredEvent → Bool) (x : StoredEvent) :
    List StoredEvent → List StoredEvent
  | [] => [x]
  | y :: ys => if le x y then x :: y :: ys else y :: insertSortedBy le x ys

/-- Sort by `le` (helper for the store's `orderBy: date asc`). -/
def sortByLe (le : StoredEvent → StoredEvent → Bool) : List StoredEvent → List StoredEvent
  | [] => []
  | x :: xs => insertSortedBy le x (sortByLe le xs)

/-- Date order used by the list route. -/
def dateLeB (a b : StoredEvent) : Bool := decide (a.date.getD 0 ≤ b.date.getD 0)

/-- The in-memory shift built from a fetched row
(`{ ...e, date: new Date(e.date) }`). -/
def fromStored (e : StoredEvent) : CalendarEvent :=
  { id := e.id, title := e.title, date := e.date, color := e.color,
    description := e.description, time := e.time, assignedTo := e.assignedTo,
    type := some e.type }

/-- `fetchEvents`: `GET /api/events?type=planning`, i.e. the rows whose type
is `planning`, ordered by date, revived into `CalendarEvent`s. -/
def fetchPlanning (store : List StoredEvent) : List CalendarEvent :=
  (sortByLe dateLeB (store.filter (fun e => e.type == "planning"))).map fromStored

/-- The create branch of `saveEvent` run against the store: a batch create
refreshes the whole collection on success (`await fetchEvents()`); a single
create pushes the returned row; a failed call is caught and leaves both the
store and the collection unchanged. -/
def saveEventCreateFlow (ok : EventPayload → Bool) (team : List TeamMember)
    (form : EventForm) (st : SystemState) : SystemState :=
  match saveEventCreate team form with
  | CreateAction.batch evs =>
    match routerPostBatch ok evs st.store with
    | (s2, true) => { store := s2, events := fetchPlanning s2 }
    | (_, false) => st
  | CreateAction.single p =>
    match routerPostSingle ok p st.store with
    | (s2, true) =>
      { store := s2, events := st.events ++ [fromStored (toStored (freshId st.store) p)] }
    | (_, false) => st
  | CreateAction.noWrite => st

/-- `duplicatePreviousWeek` run against the store: nothing to copy returns
before any write; otherwise one batch create followed, on success only, by a
full refetch; a failed call is caught and leaves everything unchanged. -/
def duplicateFlow (ok : EventPayload → Bool) (T : Int) (st : SystemState) : SystemState :=
  match duplicatePreviousWeek st.events T with
  | DuplicateResult.nothingToCopy => st
  | DuplicateResult.write ps =>
    match routerPostBatch ok ps st.store with
    | (s2, true) => { store := s2, events := fetchPlanning s2 }
    | (_, false) => st

/-! ### Helper lemmas -/

theorem recurrenceDatesAux_char (fuel : Nat) : ∀ S E : Int,
    recMeasure (some S) (some E) ≤ fuel →
    recurrenceDatesAux fuel (some S) (some E)
      = (List.range (if S ≤ E then (E - S).toNat / 7 + 1 else 0)).map
          (fun i : Nat => some (S + 7 * (i : Int))) := by
  induction fuel with
  | zero =>
    intro S E hle
    have hne : ¬S ≤ E := by
      simp only [recMeasure, Nat.le_zero] at hle
      omega
    rw [if_neg hne]
    rfl
  | succ fuel ih =>
    intro S E hle
    rw [recurrenceDatesAux]
    by_cases h : S ≤ E
    · rw [if_pos (by simp [jsDateLe, h])]
      have hadd : jsAddDays (some S) 7 = some (S + 7) := rfl
      have hle2 : recMeasure (some (S + 7)) (some E) ≤ fuel := by
        simp only [recMeasure] at hle ⊢
        omega
      rw [hadd, ih (S + 7) E hle2]
      by_cases h7 : S + 7 ≤ E
      · rw [if_pos h7, if_pos h]
        have hn : (E - S).toNat / 7 + 1 = ((E - (S + 7)).toNat / 7 + 1) + 1 := by omega
        conv_rhs => rw [hn, List.range_succ_eq_map]
        simp only [List.map_cons, List.map_map, Nat.cast_zero, mul_zero, add_zero]
        refine congrArg₂ _ rfl ?_
        refine List.map_congr_left ?_
        intro i _
        simp only [Function.comp_apply, Nat.cast_succ]
        refine congrArg _ ?_
        ring
      · rw [if_neg h7, if_pos h]
        have h0 : (E - S).toNat / 7 = 0 := by omega
        rw [h0]
        have h1 : List.range 1 = [0] := rfl
        rw [h1]
        simp
    · rw [if_neg (by simp [jsDateLe, h]), if_neg h]
      rfl

theorem recurrenceDates_char (S E : Int) :
    recurrenceDates (some S) (some E)
      = (List.range (if S ≤ E then (E - S).toNat / 7 + 1 else 0)).map
          (fun i : Nat => some (S + 7 * (i : Int))) :=
  recurrenceDatesAux_char (recMeasure (some S) (some E)) S E le_rfl

theorem recurrenceDatesAux_invalid (fuel : Nat) (cur endD : Option Int)
    (h : cur = none ∨ endD = none) : recurrenceDatesAux fuel cur endD = [] := by
  rcases h with h | h <;> subst h
  · cases fuel with
    | zero => rfl
    | succ f => rfl
  · cases fuel with
    | zero => rfl
    | succ f => cases cur <;> rfl

theorem recurrenceDates_invalid (cur endD : Option Int) (h : cur = none ∨ endD = none) :
    recurrenceDates cur endD = [] :=
  recurrenceDatesAux_invalid _ cur endD h

theorem recurrenceDatesAux_fuel (cur endD : Option Int) (k : Nat) :
    recurrenceDatesAux (recMeasure cur endD + k) cur endD = recurrenceDates cur endD := by
  rcases cur with _ | S
  · rw [recurrenceDatesAux_invalid _ none endD (Or.inl rfl),
      recurrenceDates_invalid none endD (Or.inl rfl)]
  · rcases endD with _ | E
    · rw [recurrenceDatesAux_invalid _ (some S) none (Or.inr rfl),
        recurrenceDates_invalid (some S) none (Or.inr rfl)]
    · rw [recurrenceDatesAux_char _ S E (by omega), recurrenceDates_char]

theorem strictEq_iff (a b : JSStr) : strictEq a b = true ↔ a = b := by
  cases a <;> cases b <;> simp [strictEq]

theorem isSameDayJS_iff (d : Option Int) (day : Int) :
    isSameDayJS d day = true ↔ d = some day := by
  cases d <;> simp [isSameDayJS]

theorem window_iff (d : Option Int) (T : Int) :
    (jsDateLe (some (T - 7)) d && jsDateLe d (some (T - 1))) = true
      ↔ ∃ x, d = some x ∧ T - 7 ≤ x ∧ x ≤ T - 1 := by
  cases d <;> simp [jsDateLe]

theorem runCreates_eq (ok : EventPayload → Bool) (ps : List EventPayload) :
    ∀ (n : Nat) (acc : List StoredEvent),
      runCreates ok n ps acc
        = if ps.all ok then some (acc ++ storedBatch n ps) else none := by
  induction ps with
  | nil => intro n acc; simp [runCreates, storedBatch]
  | cons p ps ih =>
    intro n acc
    by_cases hp : ok p
    · simp [runCreates, hp, ih, storedBatch]
    · simp [runCreates, hp]

theorem insertSortedBy_all (le : StoredEvent → StoredEvent → Bool) (x : StoredEvent)
    (l : List StoredEvent) (p : StoredEvent → Bool) :
    (insertSortedBy le x l).all p = (p x && l.all p) := by
  induction l with
  | nil => simp [insertSortedBy]
  | cons y ys ih =>
    by_cases hle : le x y
    · simp [insertSortedBy, hle]
    · simp [insertSortedBy, hle, ih, Bool.and_left_comm]

theorem sortByLe_all (le : StoredEvent → StoredEvent → Bool) (l : List StoredEvent)
    (p : StoredEvent → Bool) : (sortByLe le l).all p = l.all p := by
  induction l with
  | nil => rfl
  | cons x xs ih => simp [sortByLe, insertSortedBy_all, ih]

theorem insertSortedBy_length (le : StoredEvent → StoredEvent → Bool) (x : StoredEvent)
    (l : List StoredEvent) : (insertSortedBy le x l).length = l.length + 1 := by
  induction l with
  | nil => rfl
  | cons y ys ih =>
    by_cases hle : le x y <;> simp [insertSortedBy, hle, ih]

theorem sortByLe_length (le : StoredEvent → StoredEvent → Bool) (l : List StoredEvent) :
    (sortByLe le l).length = l.length := by
  induction l with
  | nil => rfl
  | cons x xs ih => simp [sortByLe, insertSortedBy_length, ih]

theorem all_map_comp {α β : Type} (f : α → β) (l : List α) (p : β → Bool) :
    (l.map f).all p = l.all (fun a => p (f a)) := by
  induction l with
  | nil => rfl
  | cons x xs ih => simp [ih]

theorem mem_zip_map {α β : Type} (f : α → β) (l : List α) (pr : α × β)
    (h : pr ∈ l.zip (l.map f)) : pr.2 = f pr.1 := by
  induction l with
  | nil => simp at h
  | cons x xs ih =>
    rw [List.map_cons, List.zip_cons_cons, List.mem_cons] at h
    rcases h with h | h
    · subst h; rfl
    · exact ih h

theorem sep_head_mismatch (c : Char) (hc : c ≠ ' ') (rest : Str) :
    sepChars.isPrefixOf (c :: rest) = false := by
  simp only [sepChars, List.isPrefixOf, Bool.and_eq_false_iff]
  left
  simp [Ne.symm hc]

theorem splitOnSeq_append (e : Str) :
    ∀ s : Str, (∀ c ∈ s, c ≠ ' ') →
      splitOnSeq sepChars (s ++ sepChars ++ e) = s :: splitOnSeq sepChars e := by
  intro s
  induction s with
  | nil =>
    intro _
    rw [List.nil_append]
    rw [show sepChars ++ e = ' ' :: ('-' :: (' ' :: e)) from rfl]
    rw [splitOnSeq, dif_pos (by constructor <;> simp [sepChars, List.isPrefixOf])]
    rfl
  | cons c s ih =>
    intro hs
    have hc : c ≠ ' ' := hs c (by simp)
    rw [List.cons_append, List.cons_append, splitOnSeq]
    rw [dif_neg (by
      intro hcon
      rw [sep_head_mismatch c hc] at hcon
      exact absurd hcon.2 (by simp))]
    rw [ih (fun x hx => hs x (by simp [hx]))]

theorem splitOnSeq_no_sep : ∀ e : Str, (∀ c ∈ e, c ≠ ' ') →
    splitOnSeq sepChars e = [e] := by
  intro e
  induction e with
  | nil => intro _; rw [splitOnSeq]
  | cons c rest ih =>
    intro hs
    have hc : c ≠ ' ' := hs c (by simp)
    rw [splitOnSeq]
    rw [dif_neg (by
      intro hcon
      rw [sep_head_mismatch c hc] at hcon
      exact absurd hcon.2 (by simp))]
    rw [ih (fun x hx => hs x (by simp [hx]))]

theorem containsSeq_append (e : Str) :
    ∀ s : Str, (∀ c ∈ s, c ≠ ' ') →
      containsSeq sepChars (s ++ sepChars ++ e) = true := by
  intro s
  induction s with
  | nil =>
    intro _
    rw [List.nil_append]
    rw [show sepChars ++ e = ' ' :: ('-' :: (' ' :: e)) from rfl]
    rw [containsSeq]
    simp [sepChars, List.isPrefixOf]
  | cons c s ih =>
    intro hs
    have hc : c ≠ ' ' := hs c (by simp)
    rw [List.cons_append, List.cons_append, containsSeq]
    rw [sep_head_mismatch c hc]
    rw [Bool.false_or]
    rw [ih (fun x hx => hs x (by simp [hx]))]

theorem digit_ne_space (c : Char) (h : c.isDigit = true) : c ≠ ' ' := by
  intro hc
  rw [hc] at h
  exact absurd h (by decide)

theorem wellFormedTime_shape (t : Str) (h : wellFormedTime t = true) :
    ∃ h1 h2 c m1 m2, t = [h1, h2, c, m1, m2]
      ∧ h1.isDigit = true ∧ h2.isDigit = true ∧ c = ':'
      ∧ m1.isDigit = true ∧ m2.isDigit = true := by
  match t with
  | [] | [_] | [_, _] | [_, _, _] | [_, _, _, _] =>
    exact absurd h (by simp [wellFormedTime])
  | a :: b :: c :: d :: e :: f :: rest =>
    exact absurd h (by simp [wellFormedTime])
  | [h1, h2, c, m1, m2] =>
    simp only [wellFormedTime, Bool.and_eq_true, beq_iff_eq] at h
    exact ⟨h1, h2, c, m1, m2, rfl, h.1.1.1.1.1.1, h.1.1.1.1.1.2, h.1.1.1.1.2,
      h.1.1.1.2, h.1.1.2⟩

theorem wellFormedTime_no_space (t : Str) (h : wellFormedTime t = true) :
    ∀ c ∈ t, c ≠ ' ' := by
  obtain ⟨h1, h2, c, m1, m2, ht, d1, d2, hc, d3, d4⟩ := wellFormedTime_shape t h
  subst ht hc
  intro x hx
  simp only [List.mem_cons, List.not_mem_nil, or_false] at hx
  rcases hx with h | h | h | h | h <;> subst h
  · exact digit_ne_space _ d1
  · exact digit_ne_space _ d2
  · decide
  · exact digit_ne_space _ d3
  · exact digit_ne_space _ d4

theorem wellFormedTime_not_empty (t : Str) (h : wellFormedTime t = true) :
    t.isEmpty = false := by
  obtain ⟨h1, h2, c, m1, m2, ht, _⟩ := wellFormedTime_shape t h
  subst ht
  rfl

/-! ### Claim theorems -/

/-- C1: for valid start day `S` and end day `E`, the recurrence generation in
`saveEvent` produces exactly `(E - S).toNat / 7 + 1` shift instances when
`S ≤ E` (the floor of `(E - S) / 7`, plus one) and zero when `E < S`; the
produced list is exactly one instance per week, instance `i` dated
`S + 7 * i` — so the first instance is dated exactly `S` and each subsequent
instance is exactly 7 days after the previous one — and every instance
carries the template's fields unchanged. -/
theorem recurrence_count_and_dates (base : BaseEventData) (S E : Int) :
    (eventsToCreate base (some S) (some E)).length
        = (if S ≤ E then (E - S).toNat / 7 + 1 else 0)
    ∧ eventsToCreate base (some S) (some E)
        = (List.range (if S ≤ E then (E - S).toNat / 7 + 1 else 0)).map
            (fun i : Nat =>
              ({ toBaseEventData := base, date := some (S + 7 * (i : Int)) } : EventPayload))
    ∧ (eventsToCreate base (some S) (some E)).head?
        = (if S ≤ E then
            some ({ toBaseEventData := base, date := some S } : EventPayload)
          else none) := by
  unfold eventsToCreate
  rw [recurrenceDates_char]
  refine ⟨by simp, ?_, ?_⟩
  · rw [List.map_map]
    rfl
  · by_cases h : S ≤ E
    · rw [if_pos h, if_pos h]
      have hn : (E - S).toNat / 7 + 1 = (E - S).toNat / 7 + 1 := rfl
      rw [List.range_succ_eq_map]
      simp
    · rw [if_neg h, if_neg h]
      simp

/-- C9: the weekly recurrence loop always terminates with a finite list
(`recurrenceDates` is total and characterized in closed form): for valid
dates it steps by exactly 7 days, one instance per step, stopping once the
stepped date would exceed the end date; when either date is invalid the
comparison fails and the loop exits immediately with zero instances. -/
theorem recurrence_loop_terminates (cur endD : Option Int) (k : Nat) :
    recurrenceDates cur endD
      = (match cur, endD with
         | some S, some E =>
            (List.range (if S ≤ E then (E - S).toNat / 7 + 1 else 0)).map
              (fun i : Nat => some (S + 7 * (i : Int)))
         | _, _ => ([] : List (Option Int)))
    ∧ recurrenceDatesAux (recMeasure cur endD + k) cur endD = recurrenceDates cur endD := by
  refine ⟨?_, recurrenceDatesAux_fuel cur endD k⟩
  rcases cur with _ | S <;> rcases endD with _ | E
  · exact recurrenceDates_invalid none none (Or.inl rfl)
  · exact recurrenceDates_invalid none _ (Or.inl rfl)
  · exact recurrenceDates_invalid _ none (Or.inr rfl)
  · exact recurrenceDates_char S E

/-- C4: formatting a pair of well-formed 24-hour times as
`"start - end"` (as `saveEvent` does) and parsing the composite back by
splitting on the literal separator (as `openEditEventDialog` does) recovers
the original pair; when the separator is absent, parsing yields the fallback
09:00–17:00 pair. -/
theorem time_roundtrip (s e t : Str) :
    (wellFormedTime s = true → wellFormedTime e = true →
       parseTimePair (some (formatTimeString s e)) = (s, e))
    ∧ (containsSeq sepChars t = false →
       parseTimePair (some t) = (defaultStart, defaultEnd)) := by
  constructor
  · intro hs he
    have hs' := wellFormedTime_no_space s hs
    have he' := wellFormedTime_no_space e he
    have hsne := wellFormedTime_not_empty s hs
    have hene := wellFormedTime_not_empty e he
    rw [show formatTimeString s e = s ++ sepChars ++ e from rfl]
    simp only [parseTimePair]
    have hne : (s ++ sepChars ++ e).isEmpty = false := by
      rcases s with _ | ⟨c, s⟩ <;> rfl
    have hcond : (!(s ++ sepChars ++ e).isEmpty
        && containsSeq sepChars (s ++ sepChars ++ e)) = true := by
      rw [hne, containsSeq_append e s hs']
      rfl
    rw [if_pos hcond]
    rw [splitOnSeq_append e s hs', splitOnSeq_no_sep e he']
    simp [List.getD, hsne, hene]
  · intro ht
    simp only [parseTimePair]
    have hcond : (!t.isEmpty && containsSeq sepChars t) = false := by
      rw [ht, Bool.and_false]
    rw [if_neg (by simp [hcond])]

/-- Auxiliary closed witness input for the round-trip theorem. -/
def witStart : Str := "09:00".toList

/-- Auxiliary closed witness input for the round-trip theorem. -/
def witEnd : Str := "13:00".toList

/-- Witness for C4 at the concrete times 09:00 and 13:00, and at a concrete
separator-free string. -/
theorem time_roundtrip_witness :
    parseTimePair (some (formatTimeString witStart witEnd)) = (witStart, witEnd)
    ∧ parseTimePair (some ("0900".toList)) = (defaultStart, defaultEnd) :=
  ⟨(time_roundtrip witStart witEnd []).1 (by decide) (by decide),
   (time_roundtrip witStart witEnd ("0900".toList)).2 (by decide)⟩

/-- A shift whose `assignedTo` field is absent (`undefined`), dated day 0. -/
def undefShift : CalendarEvent :=
  { id := 1, title := "Morning", date := some 0, color := "#3b82f6",
    description := none, time := none, assignedTo := JSStr.undef,
    type := some "planning" }

/-- C3 counterexample: the claim says a shift with *absent* `assignedTo`
matches the unassigned (`null`) row; `getEventsForCell` compares with strict
equality, `undefined === null` is false in JS, so this same-day shift with
absent `assignedTo` is not returned for the unassigned row. -/
theorem grid_cell_absent_cex :
    isSameDayJS undefShift.date 0 = true
    ∧ getEventsForCell [undefShift] JSStr.jnull 0 = [] := by decide

/-- C3 (amended): `getEventsForCell` returns exactly the shifts whose
`assignedTo` is *strictly* equal to the row id (`null` matches only the
unassigned row; an absent/`undefined` `assignedTo` matches no row) and whose
date is the same day, in arrival order of the collection (a sublist); being a
pure function it is deterministic, and a shift never appears under two
different row ids. -/
theorem grid_cell_membership (events : List CalendarEvent) (R : JSStr) (day : Int) :
    (∀ ev, ev ∈ getEventsForCell events R day
        ↔ (ev ∈ events ∧ ev.assignedTo = R ∧ ev.date = some day))
    ∧ (getEventsForCell events R day).Sublist events
    ∧ (∀ (R2 : JSStr) (d1 d2 : Int) (ev : CalendarEvent),
        ev ∈ getEventsForCell events R d1 → ev ∈ getEventsForCell events R2 d2 →
        R = R2) := by
  refine ⟨?_, ?_, ?_⟩
  · intro ev
    unfold getEventsForCell
    rw [List.mem_filter]
    constructor
    · rintro ⟨h1, h2⟩
      rw [Bool.and_eq_true] at h2
      exact ⟨h1, (strictEq_iff _ _).1 h2.1, (isSameDayJS_iff _ _).1 h2.2⟩
    · rintro ⟨h1, h2, h3⟩
      refine ⟨h1, ?_⟩
      rw [Bool.and_eq_true]
      exact ⟨(strictEq_iff _ _).2 h2, (isSameDayJS_iff _ _).2 h3⟩
  · unfold getEventsForCell
    exact List.filter_sublist events
  · intro R2 d1 d2 ev h1 h2
    unfold getEventsForCell at h1 h2
    rw [List.mem_filter, Bool.and_eq_true] at h1 h2
    have e1 := (strictEq_iff _ _).1 h1.2.1
    have e2 := (strictEq_iff _ _).1 h2.2.1
    rw [← e1, ← e2]

/-- Auxiliary concrete shift for the grid-cell witness. -/
def witCellShift : CalendarEvent :=
  { id := 2, title := "Soir", date := some 3, color := "#abc",
    description := none, time := none, assignedTo := JSStr.str "E1",
    type := some "planning" }

/-- Witness for the amended C3 at a concrete assigned shift. -/
theorem grid_cell_membership_witness :
    witCellShift ∈ getEventsForCell [witCellShift] (JSStr.str "E1") 3 :=
  ((grid_cell_membership [witCellShift] (JSStr.str "E1") 3).1 witCellShift).mpr
    ⟨by simp, rfl, rfl⟩

/-- C2: `duplicatePreviousWeek` selects exactly the shifts dated within
`[T - 7, T - 1]` inclusive, produces one payload per selected shift (equal
count) with identical title/time/description/color/assignedTo and the date
advanced by exactly 7 days, and when the source window is empty it reports
nothing to copy and performs no store write (the flow leaves the state
unchanged). -/
theorem duplicate_week_spec (events : List CalendarEvent) (T : Int) :
    (∀ ev, ev ∈ duplicateWindowFilter events T
        ↔ (ev ∈ events ∧ ∃ x, ev.date = some x ∧ T - 7 ≤ x ∧ x ≤ T - 1))
    ∧ (duplicatePayloads events T).length = (duplicateWindowFilter events T).length
    ∧ (∀ pr ∈ (duplicateWindowFilter events T).zip (duplicatePayloads events T),
        pr.2.title = pr.1.title ∧ pr.2.time = pr.1.time
        ∧ pr.2.description = pr.1.description ∧ pr.2.color = pr.1.color
        ∧ pr.2.assignedTo = pr.1.assignedTo
        ∧ pr.2.date = jsAddDays pr.1.date 7)
    ∧ (duplicateWindowFilter events T = [] →
        duplicatePreviousWeek events T = DuplicateResult.nothingToCopy)
    ∧ (duplicateWindowFilter events T ≠ [] →
        duplicatePreviousWeek events T = DuplicateResult.write (duplicatePayloads events T))
    ∧ (∀ (ok : EventPayload → Bool) (st : SystemState),
        duplicateWindowFilter st.events T = [] → duplicateFlow ok T st = st) := by
  refine ⟨?_, ?_, ?_, ?_, ?_, ?_⟩
  · intro ev
    unfold duplicateWindowFilter
    rw [List.mem_filter]
    exact and_congr Iff.rfl (window_iff ev.date T)
  · unfold duplicatePayloads
    rw [List.length_map]
  · intro pr hpr
    have h2 := mem_zip_map dupTransform (duplicateWindowFilter events T) pr hpr
    rw [h2]
    exact ⟨rfl, rfl, rfl, rfl, rfl, rfl⟩
  · intro h
    unfold duplicatePreviousWeek
    rw [h]
    rfl
  · intro h
    unfold duplicatePreviousWeek
    rw [if_neg (by simp only [beq_iff_eq, List.length_eq_zero]; exact h)]
  · intro ok st h
    have hd : duplicatePreviousWeek st.events T = DuplicateResult.nothingToCopy := by
      unfold duplicatePreviousWeek
      rw [h]
      rfl
    unfold duplicateFlow
    rw [hd]

/-- Auxiliary concrete shift for the duplication witness (the spec scenario:
dated 2024-03-05, assigned to employee E1). -/
def witDupShift : CalendarEvent :=
  { id := 3, title := "Morning", date := some (daysFromCivil 2024 3 5), color := "#abc",
    description := some "", time := some ("09:00 - 13:00".toList),
    assignedTo := JSStr.str "E1", type := some "planning" }

/-- Witness for C2 at the spec scenario: duplicating into the week starting
2024-03-11 yields exactly one payload, dated 2024-03-12. -/
theorem duplicate_week_spec_witness :
    duplicatePreviousWeek [witDupShift] (daysFromCivil 2024 3 11)
      = DuplicateResult.write (duplicatePayloads [witDupShift] (daysFromCivil 2024 3 11))
    ∧ witDupShift ∈ duplicateWindowFilter [witDupShift] (daysFromCivil 2024 3 11)
    ∧ (duplicatePayloads [witDupShift] (daysFromCivil 2024 3 11)).map (fun p => p.date)
        = [some (daysFromCivil 2024 3 12)] :=
  ⟨(duplicate_week_spec [witDupShift] (daysFromCivil 2024 3 11)).2.2.2.2.1 (by decide),
   ((duplicate_week_spec [witDupShift] (daysFromCivil 2024 3 11)).1 witDupShift).mpr
     ⟨by simp, daysFromCivil 2024 3 5, rfl, by decide, by decide⟩,
   by decide⟩

/-- A form with recurrence requested and a present but unparsable end
date. -/
def badEndForm : EventForm :=
  { title := "Morning", date := "2024-03-04".toList, startTime := "09:00".toList,
    endTime := "13:00".toList, description := "", color := "#3b82f6",
    assignedTo := JSStr.str "", recurrence := true,
    recurrenceEndDate := "not-a-date".toList }

/-- C5 counterexample: with recurrence requested and a present but
unparsable end date, the truthiness guard takes the recurrence branch, the
loop compares against an invalid date and yields zero instances, and the
batch is skipped — so *nothing* is created, instead of the claimed
fall-back to exactly one single create. -/
theorem unparsable_end_cex :
    badEndForm.recurrence = true
    ∧ badEndForm.recurrenceEndDate ≠ []
    ∧ jsParseDate badEndForm.recurrenceEndDate = none
    ∧ jsParseDate badEndForm.date = some (daysFromCivil 2024 3 4)
    ∧ saveEventCreate [] badEndForm = CreateAction.noWrite := by decide

/-- C5 (amended): with recurrence requested, an *absent* (empty) end date
falls back to exactly one single create; a *present but unparsable* end date
produces zero loop instances and no create call at all. -/
theorem recurrence_end_fallback (team : List TeamMember) (form : EventForm)
    (hrec : form.recurrence = true) :
    (form.recurrenceEndDate = [] →
       saveEventCreate team form = CreateAction.single (singleCreatePayload team form))
    ∧ (form.recurrenceEndDate ≠ [] → jsParseDate form.recurrenceEndDate = none →
       saveEventCreate team form = CreateAction.noWrite) := by
  constructor
  · intro h
    unfold saveEventCreate
    rw [if_neg (by rw [h]; simp)]
  · intro h hparse
    unfold saveEventCreate
    have hcond : (form.recurrence && !form.recurrenceEndDate.isEmpty) = true := by
      rw [hrec, Bool.true_and]
      rcases hE : form.recurrenceEndDate with _ | ⟨c, r⟩
      · exact absurd hE h
      · simp
    rw [if_pos hcond, hparse]
    have hempty : eventsToCreate (baseEventData team form) (jsParseDate form.date) none
        = [] := by
      unfold eventsToCreate
      rw [recurrenceDates_invalid _ none (Or.inr rfl)]
      rfl
    rw [hempty]
    rfl

/-- A form with recurrence requested and an absent (empty) end date. -/
def emptyEndForm : EventForm :=
  { badEndForm with recurrenceEndDate := [] }

/-- Witness for the amended C5: an absent end date falls back to one single
create. -/
theorem recurrence_end_fallback_witness :
    saveEventCreate [] emptyEndForm
      = CreateAction.single (singleCreatePayload [] emptyEndForm) :=
  (recurrence_end_fallback [] emptyEndForm rfl).1 rfl

/-- A recurring create request whose template title is empty. -/
def emptyTitleForm : EventForm :=
  { title := "", date := "2024-03-04".toList, startTime := "09:00".toList,
    endTime := "13:00".toList, description := "", color := "#3b82f6",
    assignedTo := JSStr.str "", recurrence := true,
    recurrenceEndDate := "2024-03-11".toList }

/-- C6 counterexample: `saveEvent` performs no validation before its store
call, and the batch branch of the events route performs none either: a
recurrence create whose template title is empty reaches the Event Store and
two rows with empty titles are persisted, contradicting the claim that no
create call reaches the store with an empty title. -/
theorem empty_title_batch_persisted_cex :
    emptyTitleForm.title = ""
    ∧ (saveEventCreateFlow (fun _ => true) [] emptyTitleForm ⟨[], []⟩).store.length = 2
    ∧ (saveEventCreateFlow (fun _ => true) [] emptyTitleForm ⟨[], []⟩).store.all
        (fun ev => ev.title == "") = true := by decide

/-- C6 (amended): the only title/date validation sits in the Event Store's
single-create route (not in `saveEvent` before the I/O): a single create
whose title is empty or whose date is invalid (serialized as `null`) is
rejected with no store write, while a valid accepted single create appends
exactly one row; the batch path has no such validation. -/
theorem single_create_validation (ok : EventPayload → Bool) (p : EventPayload)
    (store : List StoredEvent) :
    (p.title = "" → routerPostSingle ok p store = (store, false))
    ∧ (p.date = none → routerPostSingle ok p store = (store, false))
    ∧ (p.title ≠ "" → p.date ≠ none → ok p = true →
        routerPostSingle ok p store = (store ++ [toStored (freshId store) p], true)) := by
  refine ⟨?_, ?_, ?_⟩
  · intro h
    unfold routerPostSingle
    rw [if_pos (by simp [h])]
  · intro h
    unfold routerPostSingle
    rw [if_pos (by simp [h])]
  · intro h1 h2 h3
    unfold routerPostSingle
    rw [if_neg (by simp [h1, h2]), if_pos h3]

/-- Auxiliary concrete invalid payload (empty title) for the validation
witness. -/
def invalidSinglePayload : EventPayload :=
  { title := "", time := none, description := none, color := "#3b82f6",
    assignedTo := JSStr.jnull, type := "planning", date := some 0 }

/-- Witness for the amended C6: an empty-title single create is rejected
with no store write. -/
theorem single_create_validation_witness :
    routerPostSingle (fun _ => true) invalidSinglePayload [] = ([], false) :=
  (single_create_validation (fun _ => true) invalidSinglePayload []).1 rfl

/-- C7: batch creation is all-or-nothing (the transaction either appends
every row of the batch or rolls back to the untouched store), and the
in-memory collection is refreshed from the store only after a successful
batch: a failed batch leaves both the store and the collection exactly as
they were, for both the recurrence flow and the week-duplication flow. -/
theorem batch_atomic_refresh (ok : EventPayload → Bool) (team : List TeamMember)
    (form : EventForm) (st : SystemState) (evs : List EventPayload)
    (hb : saveEventCreate team form = CreateAction.batch evs) :
    (routerPostBatch ok evs st.store
        = if evs.all ok then (st.store ++ storedBatch (freshId st.store) evs, true)
          else (st.store, false))
    ∧ (evs.all ok = true →
        saveEventCreateFlow ok team form st
          = { store := st.store ++ storedBatch (freshId st.store) evs,
              events := fetchPlanning (st.store ++ storedBatch (freshId st.store) evs) })
    ∧ (evs.all ok = false → saveEventCreateFlow ok team form st = st)
    ∧ (∀ (T : Int) (ps : List EventPayload),
        duplicatePreviousWeek st.events T = DuplicateResult.write ps →
        (ps.all ok = true →
          duplicateFlow ok T st
            = { store := st.store ++ storedBatch (freshId st.store) ps,
                events := fetchPlanning (st.store ++ storedBatch (freshId st.store) ps) })
        ∧ (ps.all ok = false → duplicateFlow ok T st = st)) := by
  have hbatch : ∀ qs : List EventPayload, routerPostBatch ok qs st.store
      = if qs.all ok then (st.store ++ storedBatch (freshId st.store) qs, true)
        else (st.store, false) := by
    intro qs
    unfold routerPostBatch
    rw [runCreates_eq]
    by_cases hq : qs.all ok <;> simp [hq]
  have hflow : saveEventCreateFlow ok team form st
      = (match routerPostBatch ok evs st.store with
         | (s2, true) => { store := s2, events := fetchPlanning s2 }
         | (_, false) => st) := by
    unfold saveEventCreateFlow
    rw [hb]
  refine ⟨hbatch evs, ?_, ?_, ?_⟩
  · intro hall
    rw [hflow, hbatch evs, if_pos hall]
  · intro hall
    rw [hflow, hbatch evs, if_neg (by simp [hall])]
  · intro T ps hw
    have hdflow : duplicateFlow ok T st
        = (match routerPostBatch ok ps st.store with
           | (s2, true) => { store := s2, events := fetchPlanning s2 }
           | (_, false) => st) := by
      unfold duplicateFlow
      rw [hw]
    constructor
    · intro hall
      rw [hdflow, hbatch ps, if_pos hall]
    · intro hall
      rw [hdflow, hbatch ps, if_neg (by simp [hall])]

/-- Auxiliary concrete recurring form for the atomicity witness. -/
def witBatchForm : EventForm :=
  { title := "Morning", date := "2024-03-04".toList, startTime := "09:00".toList,
    endTime := "13:00".toList, description := "", color := "#3b82f6",
    assignedTo := JSStr.jnull, recurrence := true,
    recurrenceEndDate := "2024-03-11".toList }

/-- The batch the witness form generates. -/
def witBatchEvs : List EventPayload :=
  eventsToCreate (baseEventData [] witBatchForm) (jsParseDate witBatchForm.date)
    (jsParseDate witBatchForm.recurrenceEndDate)

/-- Witness for C7 at a concrete two-instance batch against an empty store
with every create accepted. -/
theorem batch_atomic_refresh_witness :
    saveEventCreateFlow (fun _ => true) [] witBatchForm ⟨[], []⟩
      = { store := storedBatch 0 witBatchEvs,
          events := fetchPlanning (storedBatch 0 witBatchEvs) } := by
  have h := (batch_atomic_refresh (fun _ => true) [] witBatchForm ⟨[], []⟩ witBatchEvs
    (by decide)).2.1 (by decide)
  simpa [freshId] using h

/-- C8: every scheduling read and write sticks to the `planning` kind: the
list fetch keeps exactly the `planning`-typed rows, and the single-create,
edit, recurrence-batch, and week-duplication payloads all carry
`type = "planning"`. -/
theorem planning_kind_invariant (store : List StoredEvent) (team : List TeamMember)
    (form : EventForm) (c e : Option Int) (events : List CalendarEvent) (T : Int) :
    (fetchPlanning store).all (fun ev => ev.type == some "planning") = true
    ∧ (fetchPlanning store).length
        = (store.filter (fun ev => ev.type == "planning")).length
    ∧ (baseEventData team form).type = "planning"
    ∧ (singleCreatePayload team form).type = "planning"
    ∧ (saveEventEdit team form).type = "planning"
    ∧ (eventsToCreate (baseEventData team form) c e).all
        (fun p => p.type == "planning") = true
    ∧ (duplicatePayloads events T).all (fun p => p.type == "planning") = true := by
  refine ⟨?_, ?_, rfl, rfl, rfl, ?_, ?_⟩
  · unfold fetchPlanning
    rw [all_map_comp, sortByLe_all, List.all_eq_true]
    intro ev hev
    have hty := (List.mem_filter.mp hev).2
    simp only [beq_iff_eq] at hty
    simp [fromStored, hty]
  · unfold fetchPlanning
    rw [List.length_map, sortByLe_length]
  · unfold eventsToCreate
    rw [all_map_comp, List.all_eq_true]
    intro d hd
    rfl
  · unfold duplicatePayloads
    rw [all_map_comp, List.all_eq_true]
    intro ev hev
    rfl

/-- The invariant shape of a persisted `assignedTo`: `null` or a non-empty
employee id (never `undefined`, never the empty string). -/
def nullOrNonEmptyId : JSStr → Bool
  | JSStr.jnull => true
  | JSStr.str s => !(s == "")
  | JSStr.undef => false

/-- C10: every shift written by a create or edit operation carries an
`assignedTo` that is either `null` or a non-empty employee id — the form's
empty-string "unassigned" selection is coerced to `null` by `|| null` before
the write, it survives storage unchanged, and it satisfies the unassigned
grid row's strict `null` comparison. -/
theorem assignedTo_null_coercion (team : List TeamMember) (form : EventForm)
    (c e : Option Int) (n : Nat) :
    nullOrNonEmptyId (baseEventData team form).assignedTo = true
    ∧ (baseEventData team form).assignedTo = jsOrNull form.assignedTo
    ∧ jsOrNull (JSStr.str "") = JSStr.jnull
    ∧ (singleCreatePayload team form).assignedTo = (baseEventData team form).assignedTo
    ∧ (saveEventEdit team form).assignedTo = (baseEventData team form).assignedTo
    ∧ (eventsToCreate (baseEventData team form) c e).all
        (fun p => nullOrNonEmptyId p.assignedTo) = true
    ∧ (toStored n (singleCreatePayload team form)).assignedTo
        = (baseEventData team form).assignedTo
    ∧ strictEq JSStr.jnull JSStr.jnull = true := by
  have hbase : nullOrNonEmptyId (baseEventData team form).assignedTo = true := by
    show nullOrNonEmptyId (jsOrNull form.assignedTo) = true
    rcases hA : form.assignedTo with _ | _ | s
    · rfl
    · rfl
    · by_cases hs : s = ""
      · simp [jsOrNull, hs, nullOrNonEmptyId]
      · simp [jsOrNull, hs, nullOrNonEmptyId]
  refine ⟨hbase, rfl, rfl, rfl, rfl, ?_, ?_, rfl⟩
  · unfold eventsToCreate
    rw [all_map_comp, List.all_eq_true]
    intro d hd
    exact hbase
  · show storedJS (jsOrNull form.assignedTo) = jsOrNull form.assignedTo
    rcases hA : form.assignedTo with _ | _ | s
    · rfl
    · rfl
    · by_cases hs : s = ""
      · simp [jsOrNull, hs, storedJS]
      · simp [jsOrNull, hs, storedJS]

end Ecofute
